import Mathlib

/-!
Verification of the GMeetClone signaling relay (src/server.js) and
mesh client (src/public/client.js).

The server is embedded as a state machine: `ServerState` holds the
`rooms` map (roomId → Set of socket ids, from server.js line 86), the
per-socket `socket.data.roomId` field (`sockRoom`), and the socket.io
adapter's own room membership (`ioRooms`, mutated by `socket.join` /
`socket.leave`), which determines the recipients of `socket.to(room)`
and `io.to(room)` broadcasts.  JavaScript `Set` is embedded as a
duplicate-free insertion-ordered list (`setAdd` / `setDelete`), and
`Map` / plain objects as association lists (`mapGet` / `mapSet` /
`mapDelete`).  Each socket.io event handler becomes a function from the
state and the event's payload to the new state plus the list of emitted
messages, each emit addressed to a concrete recipient socket id.

The client (client.js) is embedded the same way: `ClientState` holds
the `peers` object (socketId → RTCPeerConnection) and the keys of
`remoteVideoContainers`.  An `RTCPeerConnection` is abstracted to the
negotiation data the handlers touch: the applied remote description,
the set local description, and the ICE candidates added.  The SDP blobs
produced by the external WebRTC stack (`createOffer` / `createAnswer`)
are opaque values supplied as parameters of the handler events.
-/

abbrev SessionId := String
abbrev RoomId := String

/-- A JavaScript argument as the `join-room` handler inspects it:
either a string, or some non-string value (undefined, null, number,
object, ...). -/
inductive JArg where
  | jstr (s : String)
  | jother
deriving DecidableEq

/-- server.js line 108: `!roomId || typeof roomId !== 'string'`.
A string is falsy exactly when empty; every non-string fails the
`typeof` test. -/
def invalidRoomId : JArg → Bool
  | .jstr s => s == ""
  | .jother => true

/-- JavaScript `Set.prototype.add`: no-op when present, else append
(insertion order preserved). -/
def setAdd (l : List SessionId) (x : SessionId) : List SessionId :=
  if x ∈ l then l else l ++ [x]

/-- JavaScript `Set.prototype.delete`. -/
def setDelete (l : List SessionId) (x : SessionId) : List SessionId :=
  l.filter (fun y => y ≠ x)

/-- `Map.prototype.get` / property read on an object, over an
association-list embedding. -/
def mapGet {α : Type} (m : List (String × α)) (k : String) : Option α :=
  match m with
  | [] => none
  | (k', v) :: rest => if k' = k then some v else mapGet rest k

/-- `Map.prototype.set` / property assignment: replace the entry if the
key is present, else append. -/
def mapSet {α : Type} (m : List (String × α)) (k : String) (v : α) :
    List (String × α) :=
  match m with
  | [] => [(k, v)]
  | (k', v') :: rest => if k' = k then (k, v) :: rest else (k', v') :: mapSet rest k v

/-- `Map.prototype.delete` / `delete obj[k]`. -/
def mapDelete {α : Type} (m : List (String × α)) (k : String) :
    List (String × α) :=
  m.filter (fun p => p.1 ≠ k)

/-- The relayed signaling payload `{ target, sdp, sender, roomId }`.
`target` is `none` when the property is absent; the handlers treat an
absent or empty target as falsy.  `sdp` stands for the opaque
sdp/candidate blob, which the relay never inspects. -/
structure SigPayload where
  target : Option String
  sdp : String
  sender : String
  roomId : Option String
deriving DecidableEq

/-- Which of the three identical relay handlers (server.js lines
136-150) fired: `offer`, `answer` or `ice-candidate`. -/
inductive SigKind where
  | offer
  | answer
  | ice
deriving DecidableEq

/-- The chat envelope `{ sender: socket.id, text, ts: Date.now() }`
built at server.js line 156. -/
structure ChatMsg where
  sender : SessionId
  text : String
  ts : Nat
deriving DecidableEq

/-- One message emitted by the server, addressed to one recipient
socket (a broadcast is expanded to one emit per recipient). -/
inductive Emit where
  | errorMsg (dst : SessionId) (reason : String)
  | existingUsers (dst : SessionId) (users : List SessionId)
  | userJoined (dst : SessionId) (sid : SessionId)
  | userLeft (dst : SessionId) (sid : SessionId)
  | signal (k : SigKind) (dst : SessionId) (p : SigPayload)
  | chat (dst : SessionId) (m : ChatMsg)
deriving DecidableEq

/-- The whole server state: the `rooms` map (line 86), every socket's
`socket.data.roomId`, and the socket.io adapter's room membership. -/
structure ServerState where
  rooms : List (RoomId × List SessionId)
  sockRoom : List (SessionId × RoomId)
  ioRooms : List (RoomId × List SessionId)
deriving DecidableEq

def initState : ServerState := ⟨[], [], []⟩

/-- The members of a socket.io adapter room (recipients of
`socket.to(r)` before exclusion of the sender, and of `io.to(r)`). -/
def ioMembers (s : ServerState) (r : RoomId) : List SessionId :=
  (mapGet s.ioRooms r).getD []

/-- server.js lines 106-133, the `join-room` handler.
Order of effects, exactly as in the source: validate the room id
(emit `error-msg` and stop when invalid); `socket.join(roomId)`;
`socket.data.roomId = roomId`; create the room's Set if absent; compute
`others` from the Set *before* adding the joiner and filter out the
joiner's own id; emit `existing-users` to the joiner; add the joiner to
the Set; broadcast `user-joined` via `socket.to(roomId)` (all adapter
members of the room except the sender). -/
def joinRoom (s : ServerState) (sid : SessionId) (arg : JArg) :
    ServerState × List Emit :=
  match arg with
  | .jother => (s, [Emit.errorMsg sid "missing-room-id"])
  | .jstr roomId =>
    if roomId = "" then (s, [Emit.errorMsg sid "missing-room-id"])
    else
      let io1 := mapSet s.ioRooms roomId (setAdd ((mapGet s.ioRooms roomId).getD []) sid)
      let sock1 := mapSet s.sockRoom sid roomId
      let set0 := (mapGet s.rooms roomId).getD []
      let others := set0.filter (fun y => y ≠ sid)
      let rooms1 := mapSet s.rooms roomId (setAdd set0 sid)
      let recips := ((mapGet io1 roomId).getD []).filter (fun y => y ≠ sid)
      (⟨rooms1, sock1, io1⟩,
       Emit.existingUsers sid others :: recips.map (fun m => Emit.userJoined m sid))

/-- server.js lines 179-196, `leaveRoomCleanup(socket, roomId)`:
`socket.leave(roomId)`; if the `rooms` map has the room, delete the
socket from its Set, broadcast `user-left` via `socket.to(roomId)`, and
delete the room from the map once the Set is empty; in every case
`delete socket.data.roomId`. -/
def leaveRoomCleanup (s : ServerState) (sid : SessionId) (roomId : RoomId) :
    ServerState × List Emit :=
  let io1 :=
    match mapGet s.ioRooms roomId with
    | none => s.ioRooms
    | some l => mapSet s.ioRooms roomId (setDelete l sid)
  match mapGet s.rooms roomId with
  | none => (⟨s.rooms, mapDelete s.sockRoom sid, io1⟩, [])
  | some set0 =>
    let set1 := setDelete set0 sid
    let recips := ((mapGet io1 roomId).getD []).filter (fun y => y ≠ sid)
    let rooms1 := if set1.length = 0 then mapDelete s.rooms roomId
                  else mapSet s.rooms roomId set1
    (⟨rooms1, mapDelete s.sockRoom sid, io1⟩,
     recips.map (fun m => Emit.userLeft m sid))

/-- server.js lines 161-165, the `leave-room` handler: read
`socket.data.roomId`; when absent do nothing, else run the cleanup. -/
def leaveRoom (s : ServerState) (sid : SessionId) : ServerState × List Emit :=
  match mapGet s.sockRoom sid with
  | none => (s, [])
  | some roomId => leaveRoomCleanup s sid roomId

/-- server.js lines 167-171, the `disconnect` handler: run the cleanup
when a room is recorded; afterwards socket.io removes the departed
socket from every adapter room and its `socket.data` is gone. -/
def disconnectSock (s : ServerState) (sid : SessionId) : ServerState × List Emit :=
  let r :=
    match mapGet s.sockRoom sid with
    | none => (s, [])
    | some roomId => leaveRoomCleanup s sid roomId
  (⟨r.1.rooms, mapDelete r.1.sockRoom sid,
    r.1.ioRooms.map (fun p => (p.1, setDelete p.2 sid))⟩, r.2)

/-- server.js lines 153-158, the `send-chat` handler: drop when the
socket has no recorded room; else build `{ sender, text, ts }` and emit
it via `io.to(roomId)` to every adapter member of the room (the sender
included). -/
def sendChat (s : ServerState) (sid : SessionId) (text : String) (now : Nat) :
    ServerState × List Emit :=
  match mapGet s.sockRoom sid with
  | none => (s, [])
  | some roomId =>
    (s, (ioMembers s roomId).map (fun m => Emit.chat m ⟨sid, text, now⟩))

/-- server.js lines 136-150: the `offer`, `answer` and `ice-candidate`
handlers are textually identical up to the event name, so they are
embedded once, parameterized by `SigKind`.  `if (!payload ||
!payload.target) return;` drops a missing payload and a missing or
empty target; otherwise the whole payload is forwarded verbatim via
`io.to(payload.target)`, which addresses the target socket's own room
and reads no room state. -/
def relaySignal (s : ServerState) (k : SigKind) (payload : Option SigPayload) :
    ServerState × List Emit :=
  match payload with
  | none => (s, [])
  | some p =>
    match p.target with
    | none => (s, [])
    | some t => if t = "" then (s, []) else (s, [Emit.signal k t p])

/-- One inbound server event: which socket it came from and its payload. -/
inductive SEvent where
  | join (sid : SessionId) (arg : JArg)
  | leave (sid : SessionId)
  | disconnect (sid : SessionId)
  | chat (sid : SessionId) (text : String) (now : Nat)
  | signal (sid : SessionId) (k : SigKind) (p : Option SigPayload)

/-- Dispatch of one event to its handler. -/
def step (s : ServerState) (e : SEvent) : ServerState × List Emit :=
  match e with
  | .join sid arg => joinRoom s sid arg
  | .leave sid => leaveRoom s sid
  | .disconnect sid => disconnectSock s sid
  | .chat sid text now => sendChat s sid text now
  | .signal _ k p => relaySignal s k p

/-- Run a sequence of events, accumulating every emit. -/
def run (s : ServerState) : List SEvent → ServerState × List Emit
  | [] => (s, [])
  | e :: es =>
    let r1 := step s e
    let r2 := run r1.1 es
    (r2.1, r1.2 ++ r2.2)

/-! ## Client model (src/public/client.js) -/

/-- The negotiation data of one `RTCPeerConnection` as the client's
handlers touch it: the remote description applied with
`setRemoteDescription`, the local description set with
`setLocalDescription`, and the candidates passed to `addIceCandidate`.
A fresh connection (client.js line 91) has none of the three. -/
structure PeerConn where
  remoteDesc : Option String
  localDesc : Option String
  candidates : List String
deriving DecidableEq

/-- The client's mutable state: the `peers` object (client.js line 5,
socketId → RTCPeerConnection) and the keys of `remoteVideoContainers`
(line 6). -/
structure ClientState where
  peers : List (SessionId × PeerConn)
  remoteVideos : List SessionId
deriving DecidableEq

def initClient : ClientState := ⟨[], []⟩

/-- One message the client emits on the socket, or a `console.warn`. -/
inductive CEmit where
  | offer (target : SessionId) (sdp : String)
  | answer (target : SessionId) (sdp : String)
  | warn (msg : String)
deriving DecidableEq

/-- client.js lines 90-127, `createPeerConnection(targetSocketId)`:
builds a fresh connection and stores it under `peers[targetSocketId]`
(an object-property assignment, so an existing entry is replaced, never
duplicated). -/
def createPeerConnection (st : ClientState) (target : SessionId) : ClientState :=
  { st with peers := mapSet st.peers target ⟨none, none, []⟩ }

/-- client.js lines 61-79, `createRemoteVideo(socketId)`: registers a
video container under `remoteVideoContainers[socketId]`. -/
def createRemoteVideo (st : ClientState) (sid : SessionId) : ClientState :=
  { st with remoteVideos := setAdd st.remoteVideos sid }

/-- client.js lines 245-259, the `existing-users` handler: for each
listed user, create a peer connection and a video container, create an
offer (produced by the external WebRTC stack — here the oracle `gen`),
set it as local description, and emit `offer` to that user. -/
def handleExistingUsers (st : ClientState) (users : List SessionId)
    (gen : SessionId → String) : ClientState × List CEmit :=
  match users with
  | [] => (st, [])
  | u :: us =>
    let st1 : ClientState :=
      ⟨mapSet st.peers u ⟨none, some (gen u), []⟩, setAdd st.remoteVideos u⟩
    let r := handleExistingUsers st1 us gen
    (r.1, CEmit.offer u (gen u) :: r.2)

/-- client.js lines 261-266, the `user-joined` handler: only
`createRemoteVideo(socketId)`; no peer connection is created and no
offer is sent — the newcomer will offer first. -/
def handleUserJoined (st : ClientState) (sid : SessionId) : ClientState × List CEmit :=
  (createRemoteVideo st sid, [])

/-- client.js lines 268-276, the `offer` handler:
`peers[sender] || createPeerConnection(sender)` — reuse the existing
connection when there is one, else create it — then apply the remote
offer, create an answer (`genAnswer` stands for the external stack's
result), set it locally and emit `answer` back to the sender. -/
def handleOffer (st : ClientState) (sender : SessionId) (sdp : String)
    (genAnswer : String) : ClientState × List CEmit :=
  let pc0 :=
    match mapGet st.peers sender with
    | some pc => pc
    | none => ⟨none, none, []⟩
  let pc1 : PeerConn := { pc0 with remoteDesc := some sdp, localDesc := some genAnswer }
  (⟨mapSet st.peers sender pc1, st.remoteVideos⟩, [CEmit.answer sender genAnswer])

/-- client.js lines 278-286, the `answer` handler: when `peers[sender]`
is absent, warn and return with nothing changed; else apply the remote
answer to that connection. -/
def handleAnswer (st : ClientState) (sender : SessionId) (sdp : String) :
    ClientState × List CEmit :=
  match mapGet st.peers sender with
  | none => (st, [CEmit.warn ("No pc for answer from " ++ sender)])
  | some pc =>
    (⟨mapSet st.peers sender { pc with remoteDesc := some sdp }, st.remoteVideos⟩, [])

/-- client.js lines 288-300, the `ice-candidate` handler: when
`peers[sender]` is absent, warn and return with nothing changed; else
add the candidate to that connection (inside try/catch, so a failing
add is also non-fatal). -/
def handleIce (st : ClientState) (sender : SessionId) (candidate : String) :
    ClientState × List CEmit :=
  match mapGet st.peers sender with
  | none => (st, [CEmit.warn ("No pc for incoming candidate from " ++ sender)])
  | some pc =>
    (⟨mapSet st.peers sender { pc with candidates := pc.candidates ++ [candidate] },
      st.remoteVideos⟩, [])

/-- client.js lines 306-313, the `user-left` handler: close and drop
the departed peer's connection and its video container. -/
def handleUserLeft (st : ClientState) (sid : SessionId) : ClientState × List CEmit :=
  (⟨mapDelete st.peers sid, setDelete st.remoteVideos sid⟩, [])

/-- One inbound client event.  The `gen` / `genAnswer` fields carry the
opaque local descriptions the external WebRTC stack produced. -/
inductive CEvent where
  | existingUsers (users : List SessionId) (gen : SessionId → String)
  | userJoined (sid : SessionId)
  | offer (sender : SessionId) (sdp : String) (genAnswer : String)
  | answer (sender : SessionId) (sdp : String)
  | ice (sender : SessionId) (candidate : String)
  | userLeft (sid : SessionId)

/-- Dispatch of one client event to its handler. -/
def clientStep (st : ClientState) (e : CEvent) : ClientState × List CEmit :=
  match e with
  | .existingUsers users gen => handleExistingUsers st users gen
  | .userJoined sid => handleUserJoined st sid
  | .offer sender sdp genAnswer => handleOffer st sender sdp genAnswer
  | .answer sender sdp => handleAnswer st sender sdp
  | .ice sender candidate => handleIce st sender candidate
  | .userLeft sid => handleUserLeft st sid

/-- Run a sequence of client events, accumulating every emit. -/
def crun (st : ClientState) : List CEvent → ClientState × List CEmit
  | [] => (st, [])
  | e :: es =>
    let r1 := clientStep st e
    let r2 := crun r1.1 es
    (r2.1, r1.2 ++ r2.2)

/-! ## Lemmas about the Map / Set embedding -/

theorem mapGet_mapSet_self {α : Type} (m : List (String × α)) (k : String) (v : α) :
    mapGet (mapSet m k v) k = some v := by
  induction m with
  | nil => simp [mapSet, mapGet]
  | cons p rest ih =>
    obtain ⟨k', v'⟩ := p
    by_cases h : k' = k
    · simp [mapSet, mapGet, h]
    · simp [mapSet, mapGet, h, ih]

theorem mapGet_mapSet_ne {α : Type} (m : List (String × α)) {k k' : String} (v : α)
    (h : k' ≠ k) : mapGet (mapSet m k v) k' = mapGet m k' := by
  have h' : ¬(k = k') := fun hh => h hh.symm
  induction m with
  | nil => simp [mapSet, mapGet, h']
  | cons p rest ih =>
    obtain ⟨a, b⟩ := p
    by_cases ha : a = k
    · subst ha
      simp [mapSet, mapGet, h']
    · simp [mapSet, mapGet, ha, ih]

theorem mapGet_mapDelete_self {α : Type} (m : List (String × α)) (k : String) :
    mapGet (mapDelete m k) k = none := by
  induction m with
  | nil => simp [mapDelete, mapGet]
  | cons p rest ih =>
    obtain ⟨a, b⟩ := p
    by_cases ha : a = k
    · simpa [mapDelete, ha] using ih
    · simpa [mapDelete, mapGet, ha] using ih

theorem mapGet_mapDelete_ne {α : Type} (m : List (String × α)) {k k' : String}
    (h : k' ≠ k) : mapGet (mapDelete m k) k' = mapGet m k' := by
  have h' : ¬(k = k') := fun hh => h hh.symm
  induction m with
  | nil => simp [mapDelete, mapGet]
  | cons p rest ih =>
    obtain ⟨a, b⟩ := p
    have ih' : mapGet (List.filter (fun q => !decide (q.1 = k)) rest) k' = mapGet rest k' := by
      simpa [mapDelete] using ih
    by_cases ha : a = k
    · simp [mapDelete, mapGet, ha, h', ih']
    · simp [mapDelete, mapGet, ha, ih']

theorem mapGet_mem {α : Type} {m : List (String × α)} {k : String} {v : α}
    (h : mapGet m k = some v) : (k, v) ∈ m := by
  induction m with
  | nil => simp [mapGet] at h
  | cons p rest ih =>
    obtain ⟨a, b⟩ := p
    by_cases ha : a = k
    · subst ha
      simp [mapGet] at h
      simp [h]
    · simp only [mapGet, if_neg ha] at h
      exact List.mem_cons_of_mem _ (ih h)

theorem mem_setAdd {l : List SessionId} {x y : SessionId} :
    y ∈ setAdd l x ↔ y ∈ l ∨ y = x := by
  unfold setAdd
  by_cases h : x ∈ l
  · simp only [if_pos h]
    constructor
    · exact Or.inl
    · rintro (hy | rfl)
      · exact hy
      · exact h
  · simp [if_neg h]

theorem setAdd_filter_ne (l : List SessionId) (x : SessionId) :
    (setAdd l x).filter (fun y => y ≠ x) = l.filter (fun y => y ≠ x) := by
  unfold setAdd
  by_cases h : x ∈ l
  · simp [h]
  · simp [h, List.filter_append]

theorem not_mem_setDelete (l : List SessionId) (x : SessionId) :
    x ∉ setDelete l x := by
  simp [setDelete]

theorem mem_of_mem_setDelete {l : List SessionId} {x y : SessionId}
    (h : y ∈ setDelete l x) : y ∈ l :=
  (List.mem_filter.mp h).1

theorem setDelete_filter (l : List SessionId) (x : SessionId) :
    (setDelete l x).filter (fun y => y ≠ x) = setDelete l x := by
  simp [setDelete, List.filter_filter]

theorem keys_mapSet_of_mem {α : Type} {m : List (String × α)} {k : String} (v : α)
    (h : k ∈ m.map Prod.fst) : (mapSet m k v).map Prod.fst = m.map Prod.fst := by
  induction m with
  | nil => simp at h
  | cons p rest ih =>
    obtain ⟨a, b⟩ := p
    by_cases ha : a = k
    · simp [mapSet, ha]
    · have hk : k ∈ rest.map Prod.fst := by
        rcases List.mem_map.mp h with ⟨q, hq, hfst⟩
        rcases List.mem_cons.mp hq with rfl | hq'
        · exact absurd hfst ha
        · exact List.mem_map.mpr ⟨q, hq', hfst⟩
      simp [mapSet, ha, ih hk]

theorem keys_mapSet_of_not_mem {α : Type} {m : List (String × α)} {k : String} (v : α)
    (h : k ∉ m.map Prod.fst) : (mapSet m k v).map Prod.fst = m.map Prod.fst ++ [k] := by
  induction m with
  | nil => simp [mapSet]
  | cons p rest ih =>
    obtain ⟨a, b⟩ := p
    have ha : ¬(a = k) := by
      intro hh
      exact h (by simp [hh])
    have hk : k ∉ rest.map Prod.fst := fun hh => h (by simp [hh])
    simp [mapSet, ha, ih hk]

theorem nodup_keys_mapSet {α : Type} {m : List (String × α)} (k : String) (v : α)
    (h : (m.map Prod.fst).Nodup) : ((mapSet m k v).map Prod.fst).Nodup := by
  by_cases hk : k ∈ m.map Prod.fst
  · rw [keys_mapSet_of_mem v hk]
    exact h
  · rw [keys_mapSet_of_not_mem v hk]
    simp [List.nodup_append, h, hk]

theorem nodup_keys_mapDelete {α : Type} {m : List (String × α)} (k : String)
    (h : (m.map Prod.fst).Nodup) : ((mapDelete m k).map Prod.fst).Nodup :=
  h.sublist (List.Sublist.map Prod.fst (List.filter_sublist m))

theorem mapGet_isSome_mapSet {α : Type} {m : List (String × α)} {u : String}
    (k : String) (v : α) (h : (mapGet m u).isSome) :
    (mapGet (mapSet m k v) u).isSome := by
  by_cases hk : u = k
  · subst hk
    simp [mapGet_mapSet_self]
  · rwa [mapGet_mapSet_ne m v hk]

/-! ## Client handler lemmas -/

theorem handleExistingUsers_emits (st : ClientState) (users : List SessionId)
    (gen : SessionId → String) :
    (handleExistingUsers st users gen).2 = users.map (fun u => CEmit.offer u (gen u)) := by
  induction users generalizing st with
  | nil => simp [handleExistingUsers]
  | cons u us ih => simp [handleExistingUsers, ih]

theorem handleExistingUsers_keeps (st : ClientState) (users : List SessionId)
    (gen : SessionId → String) (u : SessionId) (h : (mapGet st.peers u).isSome) :
    (mapGet (handleExistingUsers st users gen).1.peers u).isSome := by
  induction users generalizing st with
  | nil => simpa [handleExistingUsers] using h
  | cons v vs ih =>
    simp only [handleExistingUsers]
    exact ih _ (mapGet_isSome_mapSet v _ h)

theorem handleExistingUsers_creates (st : ClientState) (users : List SessionId)
    (gen : SessionId → String) :
    ∀ u ∈ users, (mapGet (handleExistingUsers st users gen).1.peers u).isSome := by
  induction users generalizing st with
  | nil => simp
  | cons v vs ih =>
    intro u hu
    simp only [handleExistingUsers]
    rcases List.mem_cons.mp hu with rfl | hu'
    · exact handleExistingUsers_keeps _ vs gen u (by simp [mapGet_mapSet_self])
    · exact ih _ u hu'

theorem handleExistingUsers_nodup (st : ClientState) (users : List SessionId)
    (gen : SessionId → String) (h : (st.peers.map Prod.fst).Nodup) :
    ((handleExistingUsers st users gen).1.peers.map Prod.fst).Nodup := by
  induction users generalizing st with
  | nil => simpa [handleExistingUsers] using h
  | cons v vs ih =>
    simp only [handleExistingUsers]
    exact ih _ (nodup_keys_mapSet v _ h)

theorem clientStep_nodup (st : ClientState) (e : CEvent)
    (h : (st.peers.map Prod.fst).Nodup) :
    ((clientStep st e).1.peers.map Prod.fst).Nodup := by
  cases e with
  | existingUsers users gen => exact handleExistingUsers_nodup st users gen h
  | userJoined sid => simpa [clientStep, handleUserJoined, createRemoteVideo] using h
  | offer sender sdp genAnswer =>
    simp only [clientStep, handleOffer]
    exact nodup_keys_mapSet sender _ h
  | answer sender sdp =>
    cases hg : mapGet st.peers sender with
    | none => simpa [clientStep, handleAnswer, hg] using h
    | some pc =>
      simp only [clientStep, handleAnswer, hg]
      exact nodup_keys_mapSet sender _ h
  | ice sender candidate =>
    cases hg : mapGet st.peers sender with
    | none => simpa [clientStep, handleIce, hg] using h
    | some pc =>
      simp only [clientStep, handleIce, hg]
      exact nodup_keys_mapSet sender _ h
  | userLeft sid =>
    simp only [clientStep, handleUserLeft]
    exact nodup_keys_mapDelete sid h

theorem crun_nodup (st : ClientState) (evs : List CEvent)
    (h : (st.peers.map Prod.fst).Nodup) :
    ((crun st evs).1.peers.map Prod.fst).Nodup := by
  induction evs generalizing st with
  | nil => simpa [crun] using h
  | cons e es ih =>
    simp only [crun]
    exact ih _ (clientStep_nodup st e h)

/-! ## Characterizations of the server handlers -/

theorem joinRoom_eq (s : ServerState) (sid : SessionId) (roomId : String)
    (hne : roomId ≠ "") :
    joinRoom s sid (JArg.jstr roomId)
      = (⟨mapSet s.rooms roomId (setAdd ((mapGet s.rooms roomId).getD []) sid),
          mapSet s.sockRoom sid roomId,
          mapSet s.ioRooms roomId (setAdd ((mapGet s.ioRooms roomId).getD []) sid)⟩,
         Emit.existingUsers sid (((mapGet s.rooms roomId).getD []).filter (fun y => y ≠ sid))
           :: (((mapGet s.ioRooms roomId).getD []).filter (fun y => y ≠ sid)).map
               (fun m => Emit.userJoined m sid)) := by
  simp only [joinRoom, if_neg hne]
  rw [mapGet_mapSet_self]
  simp only [Option.getD_some]
  rw [setAdd_filter_ne]

theorem leaveRoomCleanup_eq (s : ServerState) (sid : SessionId) (R : RoomId)
    (set0 ioSet : List SessionId) (hroom : mapGet s.rooms R = some set0)
    (hio : mapGet s.ioRooms R = some ioSet) :
    leaveRoomCleanup s sid R
      = (⟨if (setDelete set0 sid).length = 0 then mapDelete s.rooms R
            else mapSet s.rooms R (setDelete set0 sid),
          mapDelete s.sockRoom sid,
          mapSet s.ioRooms R (setDelete ioSet sid)⟩,
         (setDelete ioSet sid).map (fun m => Emit.userLeft m sid)) := by
  simp only [leaveRoomCleanup, hroom, hio]
  rw [mapGet_mapSet_self]
  simp only [Option.getD_some]
  rw [setDelete_filter]

theorem leaveRoomCleanup_rooms (s : ServerState) (sid : SessionId) (R : RoomId) :
    (leaveRoomCleanup s sid R).1.rooms
      = match mapGet s.rooms R with
        | none => s.rooms
        | some set0 =>
          if (setDelete set0 sid).length = 0 then mapDelete s.rooms R
          else mapSet s.rooms R (setDelete set0 sid) := by
  cases hio : mapGet s.ioRooms R <;> cases hroom : mapGet s.rooms R <;>
    simp [leaveRoomCleanup, hio, hroom]

/-! ## Claim theorems -/

/-- C1: for a valid join, the server snapshots the room's member list
before inserting the joiner, sends exactly that list (filtered of the
joiner's own id, so the joiner never appears in it) as
`existing-users` to the joiner, inserts the joiner into the member set,
and only then broadcasts `user-joined` to all other current members —
the emit list exhibits that order. -/
theorem joinRoom_snapshot_insert_notify (s : ServerState) (sid : SessionId)
    (roomId : String) (hne : roomId ≠ "")
    (halign : mapGet s.ioRooms roomId = mapGet s.rooms roomId) :
    sid ∉ ((mapGet s.rooms roomId).getD []).filter (fun y => y ≠ sid) ∧
    mapGet (joinRoom s sid (JArg.jstr roomId)).1.rooms roomId
      = some (setAdd ((mapGet s.rooms roomId).getD []) sid) ∧
    (joinRoom s sid (JArg.jstr roomId)).2
      = Emit.existingUsers sid (((mapGet s.rooms roomId).getD []).filter (fun y => y ≠ sid))
        :: (((mapGet s.rooms roomId).getD []).filter (fun y => y ≠ sid)).map
            (fun m => Emit.userJoined m sid) := by
  rw [joinRoom_eq s sid roomId hne]
  refine ⟨by simp, ?_, ?_⟩
  · exact mapGet_mapSet_self ..
  · rw [halign]

/-- C1 at a concrete input: "b" joins room "r" whose only member is
"a"; "b" is told `existing-users = ["a"]` and "a" alone gets
`user-joined "b"`, in that order. -/
theorem joinRoom_snapshot_insert_notify_case :
    (joinRoom ⟨[("r", ["a"])], [], [("r", ["a"])]⟩ "b" (JArg.jstr "r")).2
      = [Emit.existingUsers "b" ["a"], Emit.userJoined "a" "b"] :=
  ((joinRoom_snapshot_insert_notify ⟨[("r", ["a"])], [], [("r", ["a"])]⟩ "b" "r"
      (by decide) rfl).2.2).trans (by decide)

/-- C3: the newly joining side creates a peer link for, and emits an
offer toward, every session in the `existing-users` list it received;
the already-present side reacts to `user-joined` with no emit at all
and no change to its peer links — it never initiates. -/
theorem joiner_initiates_present_waits (st : ClientState) (users : List SessionId)
    (gen : SessionId → String) (sid : SessionId) :
    (handleExistingUsers st users gen).2 = users.map (fun u => CEmit.offer u (gen u)) ∧
    (∀ u ∈ users, (mapGet (handleExistingUsers st users gen).1.peers u).isSome) ∧
    (handleUserJoined st sid).2 = [] ∧
    (handleUserJoined st sid).1.peers = st.peers :=
  ⟨handleExistingUsers_emits st users gen,
   handleExistingUsers_creates st users gen, rfl, rfl⟩

/-- C3 at a concrete input: a joiner told about "a" emits exactly one
offer, to "a". -/
theorem joiner_initiates_present_waits_case :
    (handleExistingUsers initClient ["a"] (fun _ => "o1")).2 = [CEmit.offer "a" "o1"] :=
  ((joiner_initiates_present_waits initClient ["a"] (fun _ => "o1") "z").1).trans (by decide)

/-- C4: along any client run the peer map holds at most one link per
remote id; an offer from a remote with an existing link applies the
remote description to that same link (its ICE candidates survive),
regenerates an answer, and creates no second link (the key list is
unchanged). -/
theorem peer_link_unique_and_reused (evs : List CEvent) (st : ClientState)
    (sender : SessionId) (sdp ans : String) (pc : PeerConn)
    (hpc : mapGet st.peers sender = some pc) :
    ((crun initClient evs).1.peers.map Prod.fst).Nodup ∧
    (handleOffer st sender sdp ans).1.peers
      = mapSet st.peers sender ⟨some sdp, some ans, pc.candidates⟩ ∧
    (handleOffer st sender sdp ans).1.peers.map Prod.fst = st.peers.map Prod.fst ∧
    (handleOffer st sender sdp ans).2 = [CEmit.answer sender ans] := by
  refine ⟨crun_nodup initClient evs (by simp [initClient]), ?_, ?_, rfl⟩
  · simp [handleOffer, hpc]
  · simp only [handleOffer, hpc]
    exact keys_mapSet_of_mem _ (List.mem_map.mpr ⟨(sender, pc), mapGet_mem hpc, rfl⟩)

/-- C4 at a concrete input: an offer from "b", who already has a link
holding candidate "c1", updates that link in place. -/
theorem peer_link_unique_and_reused_case :
    (handleOffer ⟨[("b", ⟨none, none, ["c1"]⟩)], []⟩ "b" "sdpX" "ansX").1.peers
      = [("b", ⟨some "sdpX", some "ansX", ["c1"]⟩)] :=
  ((peer_link_unique_and_reused [] ⟨[("b", ⟨none, none, ["c1"]⟩)], []⟩ "b" "sdpX" "ansX"
      ⟨none, none, ["c1"]⟩ (by decide)).2.1).trans (by decide)

/-- C5: an `answer` or `ice-candidate` whose sender has no peer link is
dropped with a warning: the state is returned untouched, no link is
created, and the (total) handler raises no fault. -/
theorem stale_answer_ice_dropped (st : ClientState) (sender : SessionId)
    (sdp cand : String) (h : mapGet st.peers sender = none) :
    handleAnswer st sender sdp
      = (st, [CEmit.warn ("No pc for answer from " ++ sender)]) ∧
    handleIce st sender cand
      = (st, [CEmit.warn ("No pc for incoming candidate from " ++ sender)]) := by
  constructor
  · simp [handleAnswer, h]
  · simp [handleIce, h]

/-- C5 at a concrete input: an answer from the unknown "z" leaves the
empty client state unchanged and only warns. -/
theorem stale_answer_ice_dropped_case :
    handleAnswer initClient "z" "sdp0"
      = (initClient, [CEmit.warn ("No pc for answer from " ++ "z")]) :=
  (stale_answer_ice_dropped initClient "z" "sdp0" "c0" rfl).1

/-- C7: `send-chat` from a socket with a recorded room builds the
envelope `{sender, text, ts}` and emits it to every member of that
room; from a socket with no recorded room it is dropped with no emit
and no state change. -/
theorem sendChat_envelope_or_drop (s : ServerState) (sid : SessionId)
    (text : String) (now : Nat) :
    (∀ R, mapGet s.sockRoom sid = some R →
      sendChat s sid text now
        = (s, (ioMembers s R).map (fun m => Emit.chat m ⟨sid, text, now⟩))) ∧
    (mapGet s.sockRoom sid = none → sendChat s sid text now = (s, [])) := by
  constructor
  · intro R hR
    simp [sendChat, hR]
  · intro h
    simp [sendChat, h]

/-- C7 at a concrete input: "a" chats in room "r" with members "a" and
"b"; both receive the `{sender := "a", text, ts}` envelope. -/
theorem sendChat_envelope_or_drop_case :
    sendChat ⟨[("r", ["a", "b"])], [("a", "r")], [("r", ["a", "b"])]⟩ "a" "hi" 5
      = (⟨[("r", ["a", "b"])], [("a", "r")], [("r", ["a", "b"])]⟩,
         [Emit.chat "a" ⟨"a", "hi", 5⟩, Emit.chat "b" ⟨"a", "hi", 5⟩]) :=
  ((sendChat_envelope_or_drop ⟨[("r", ["a", "b"])], [("a", "r")], [("r", ["a", "b"])]⟩
      "a" "hi" 5).1 "r" rfl).trans (by decide)

/-- C8: a join with an empty, missing or non-string room id emits
`error-msg` to the caller only and performs no state mutation at all
(the total handler cannot crash). -/
theorem joinRoom_invalid_rejected (s : ServerState) (sid : SessionId) (arg : JArg)
    (h : invalidRoomId arg = true) :
    joinRoom s sid arg = (s, [Emit.errorMsg sid "missing-room-id"]) := by
  cases arg with
  | jother => rfl
  | jstr r =>
    have hr : r = "" := by simpa [invalidRoomId] using h
    subst hr
    rfl

/-- C8 at a concrete input: joining with the empty room id changes
nothing and signals only the caller. -/
theorem joinRoom_invalid_rejected_case :
    joinRoom initState "a" (JArg.jstr "")
      = (initState, [Emit.errorMsg "a" "missing-room-id"]) :=
  joinRoom_invalid_rejected initState "a" (JArg.jstr "") (by decide)

/-- C10: the offer/answer/ice-candidate relay forwards a payload with a
non-empty target verbatim to that target — for every server state, so
independently of any room membership — and drops a missing payload or a
missing/empty target with no effect. -/
theorem relaySignal_verbatim_or_drop (s : ServerState) (k : SigKind)
    (p : SigPayload) (t : String) (ht : p.target = some t) (hne : t ≠ "") :
    relaySignal s k (some p) = (s, [Emit.signal k t p]) ∧
    relaySignal s k none = (s, []) ∧
    (∀ q : SigPayload, q.target = none → relaySignal s k (some q) = (s, [])) ∧
    (∀ q : SigPayload, q.target = some "" → relaySignal s k (some q) = (s, [])) := by
  refine ⟨?_, rfl, ?_, ?_⟩
  · simp [relaySignal, ht, hne]
  · intro q hq
    simp [relaySignal, hq]
  · intro q hq
    simp [relaySignal, hq]

/-- C10 at a concrete input: an offer targeted at "b" is forwarded
verbatim out of the empty state (no room was ever joined). -/
theorem relaySignal_verbatim_or_drop_case :
    relaySignal initState SigKind.offer (some ⟨some "b", "sdp0", "a", none⟩)
      = (initState, [Emit.signal SigKind.offer "b" ⟨some "b", "sdp0", "a", none⟩]) :=
  (relaySignal_verbatim_or_drop initState SigKind.offer ⟨some "b", "sdp0", "a", none⟩
      "b" rfl (by decide)).1

/-- C6: with a recorded room R whose member set and adapter room agree,
a leave removes the session from R's member set, emits exactly one
`user-left` to each remaining member, deletes R once the set is empty,
and clears the recorded room — so a second leave, or a leave with no
recorded room, is a complete no-op; the disconnect cleanup produces the
same member-set change and the same broadcast. -/
theorem leave_disconnect_cleanup_idempotent (s : ServerState) (sid : SessionId)
    (R : RoomId) (set0 : List SessionId)
    (hsock : mapGet s.sockRoom sid = some R)
    (hroom : mapGet s.rooms R = some set0)
    (halign : mapGet s.ioRooms R = some set0)
    (hnodup : set0.Nodup) :
    mapGet (leaveRoom s sid).1.rooms R
      = (if (setDelete set0 sid).length = 0 then none else some (setDelete set0 sid)) ∧
    (leaveRoom s sid).2 = (setDelete set0 sid).map (fun m => Emit.userLeft m sid) ∧
    (∀ m ∈ setDelete set0 sid,
      ((leaveRoom s sid).2).count (Emit.userLeft m sid) = 1) ∧
    mapGet (leaveRoom s sid).1.sockRoom sid = none ∧
    leaveRoom (leaveRoom s sid).1 sid = ((leaveRoom s sid).1, []) ∧
    (∀ s₁ : ServerState, mapGet s₁.sockRoom sid = none → leaveRoom s₁ sid = (s₁, [])) ∧
    (disconnectSock s sid).1.rooms = (leaveRoom s sid).1.rooms ∧
    (disconnectSock s sid).2 = (leaveRoom s sid).2 := by
  have hL : leaveRoom s sid = leaveRoomCleanup s sid R := by
    simp [leaveRoom, hsock]
  have hC := leaveRoomCleanup_eq s sid R set0 set0 hroom halign
  have hinj : Function.Injective (fun m => Emit.userLeft m sid) := by
    intro a b hab
    simpa using hab
  refine ⟨?_, ?_, ?_, ?_, ?_, ?_, ?_, ?_⟩
  · rw [hL, hC]
    by_cases hD : (setDelete set0 sid).length = 0
    · simp [hD, mapGet_mapDelete_self]
    · simp [hD, mapGet_mapSet_self]
  · rw [hL, hC]
  · intro m hm
    rw [hL, hC]
    simp only
    rw [List.count_map_of_injective (setDelete set0 sid)
        (fun m => Emit.userLeft m sid) hinj m]
    exact List.count_eq_one_of_mem (List.Nodup.filter _ hnodup) hm
  · rw [hL, hC]
    simp [mapGet_mapDelete_self]
  · rw [hL, hC]
    simp [leaveRoom, mapGet_mapDelete_self]
  · intro s₁ h₁
    simp [leaveRoom, h₁]
  · simp [disconnectSock, hsock, hL]
  · simp [disconnectSock, hsock, hL]

/-- C6 at a concrete input: "a" leaves room "r" = {"a","b"}; the set
becomes {"b"} and only "b" receives `user-left "a"`. -/
theorem leave_disconnect_cleanup_idempotent_case :
    (leaveRoom ⟨[("r", ["a", "b"])], [("a", "r")], [("r", ["a", "b"])]⟩ "a").2
      = [Emit.userLeft "b" "a"] :=
  ((leave_disconnect_cleanup_idempotent
      ⟨[("r", ["a", "b"])], [("a", "r")], [("r", ["a", "b"])]⟩
      "a" "r" ["a", "b"] rfl rfl rfl (by decide)).2.1).trans (by decide)

/-- C9: a session recorded in room A's member set that joins a
different room B ends up in both member sets with its recorded room now
B; the subsequent leave removes it only from B — A's lookup in the room
map is untouched — and every `user-left` emit of that leave is
addressed to a member of B's adapter room, so A's members outside B
receive none. -/
theorem second_join_strands_old_room (s : ServerState) (sid : SessionId)
    (A B : RoomId) (hA : sid ∈ (mapGet s.rooms A).getD [])
    (hAB : A ≠ B) (hBne : B ≠ "") :
    sid ∈ (mapGet (joinRoom s sid (JArg.jstr B)).1.rooms B).getD [] ∧
    sid ∈ (mapGet (joinRoom s sid (JArg.jstr B)).1.rooms A).getD [] ∧
    mapGet (joinRoom s sid (JArg.jstr B)).1.sockRoom sid = some B ∧
    mapGet (leaveRoom (joinRoom s sid (JArg.jstr B)).1 sid).1.rooms A
      = mapGet s.rooms A ∧
    sid ∉ (mapGet (leaveRoom (joinRoom s sid (JArg.jstr B)).1 sid).1.rooms B).getD [] ∧
    (∀ m, Emit.userLeft m sid ∈ (leaveRoom (joinRoom s sid (JArg.jstr B)).1 sid).2 →
      m ∈ ioMembers (joinRoom s sid (JArg.jstr B)).1 B) := by
  rw [joinRoom_eq s sid B hBne]
  simp only
  have hroomB : mapGet (mapSet s.rooms B (setAdd ((mapGet s.rooms B).getD []) sid)) B
      = some (setAdd ((mapGet s.rooms B).getD []) sid) := mapGet_mapSet_self ..
  have hioB : mapGet (mapSet s.ioRooms B (setAdd ((mapGet s.ioRooms B).getD []) sid)) B
      = some (setAdd ((mapGet s.ioRooms B).getD []) sid) := mapGet_mapSet_self ..
  have hsock₁ : mapGet (mapSet s.sockRoom sid B) sid = some B := mapGet_mapSet_self ..
  have hLR : leaveRoom
        (⟨mapSet s.rooms B (setAdd ((mapGet s.rooms B).getD []) sid),
          mapSet s.sockRoom sid B,
          mapSet s.ioRooms B (setAdd ((mapGet s.ioRooms B).getD []) sid)⟩ : ServerState) sid
      = leaveRoomCleanup
          ⟨mapSet s.rooms B (setAdd ((mapGet s.rooms B).getD []) sid),
            mapSet s.sockRoom sid B,
            mapSet s.ioRooms B (setAdd ((mapGet s.ioRooms B).getD []) sid)⟩ sid B := by
    simp [leaveRoom, hsock₁]
  rw [hLR, leaveRoomCleanup_eq _ sid B _ _ hroomB hioB]
  simp only
  refine ⟨?_, ?_, hsock₁, ?_, ?_, ?_⟩
  · rw [hroomB]
    simp [mem_setAdd]
  · rw [mapGet_mapSet_ne s.rooms _ hAB]
    exact hA
  · by_cases hD : (setDelete (setAdd ((mapGet s.rooms B).getD []) sid) sid).length = 0
    · rw [if_pos hD]
      rw [mapGet_mapDelete_ne _ hAB, mapGet_mapSet_ne s.rooms _ hAB]
    · rw [if_neg hD]
      rw [mapGet_mapSet_ne _ _ hAB, mapGet_mapSet_ne s.rooms _ hAB]
  · by_cases hD : (setDelete (setAdd ((mapGet s.rooms B).getD []) sid) sid).length = 0
    · rw [if_pos hD, mapGet_mapDelete_self]
      simp
    · rw [if_neg hD, mapGet_mapSet_self]
      simpa using not_mem_setDelete _ sid
  · intro m hm
    rcases List.mem_map.mp hm with ⟨x, hx, hxe⟩
    have hxm : x = m := by
      simpa using hxe
    subst hxm
    have hxio : x ∈ setAdd ((mapGet s.ioRooms B).getD []) sid := mem_of_mem_setDelete hx
    simpa [ioMembers, hioB] using hxio

/-- C9 at a concrete input: "s", sole member of room "A", joins room
"B" and then leaves; "A" still lists "s" and nobody in "A" is told. -/
theorem second_join_strands_old_room_case :
    "s" ∈ (mapGet (joinRoom ⟨[("A", ["s"])], [("s", "A")], [("A", ["s"])]⟩ "s"
        (JArg.jstr "B")).1.rooms "A").getD [] :=
  (second_join_strands_old_room ⟨[("A", ["s"])], [("s", "A")], [("A", ["s"])]⟩
      "s" "A" "B" (by decide) (by decide) (by decide)).2.1

/-- C2 counterexample: after `join("s","A")`, `join("s","B")`,
`disconnect("s")` the disconnect cleanup clears only the recorded room
"B", so room "A"'s member set still contains the disconnected "s" —
refuting the claim that disconnect removes the id from every room. -/
theorem disconnected_session_persists_in_room :
    "s" ∈ (mapGet (run initState
        [SEvent.join "s" (JArg.jstr "A"), SEvent.join "s" (JArg.jstr "B"),
         SEvent.disconnect "s"]).1.rooms "A").getD [] := by
  decide

/-- C2 amended: the disconnect cleanup empties only the member set of
the session's *recorded* room; therefore whenever the session appears
in no room other than its recorded one — as in any run where each
session joins at most one room — after its disconnect the session's id
is in no room's member set. -/
theorem disconnect_clears_when_single_roomed (s : ServerState) (sid : SessionId)
    (honly : ∀ p ∈ s.rooms, sid ∈ p.2 → mapGet s.sockRoom sid = some p.1) :
    ∀ r, sid ∉ (mapGet (disconnectSock s sid).1.rooms r).getD [] := by
  intro r
  cases hsock : mapGet s.sockRoom sid with
  | none =>
    simp only [disconnectSock, hsock]
    intro hmem
    cases hget : mapGet s.rooms r with
    | none => simp [hget] at hmem
    | some v =>
      rw [hget] at hmem
      simp only [Option.getD_some] at hmem
      have hco := honly (r, v) (mapGet_mem hget) hmem
      rw [hsock] at hco
      exact Option.noConfusion hco
  | some R =>
    simp only [disconnectSock, hsock]
    rw [leaveRoomCleanup_rooms]
    cases hroom : mapGet s.rooms R with
    | none =>
      simp only
      intro hmem
      cases hget : mapGet s.rooms r with
      | none => simp [hget] at hmem
      | some v =>
        rw [hget] at hmem
        simp only [Option.getD_some] at hmem
        have hco := honly (r, v) (mapGet_mem hget) hmem
        rw [hsock] at hco
        have hrR : r = R := (Option.some.inj hco).symm
        rw [hrR, hroom] at hget
        exact Option.noConfusion hget
    | some set0 =>
      simp only
      by_cases hrR : r = R
      · subst hrR
        by_cases hD : (setDelete set0 sid).length = 0
        · rw [if_pos hD, mapGet_mapDelete_self]
          simp
        · rw [if_neg hD, mapGet_mapSet_self]
          simpa using not_mem_setDelete _ sid
      · have hrR' : r ≠ R := hrR
        by_cases hD : (setDelete set0 sid).length = 0
        · rw [if_pos hD, mapGet_mapDelete_ne _ hrR']
          intro hmem
          cases hget : mapGet s.rooms r with
          | none => simp [hget] at hmem
          | some v =>
            rw [hget] at hmem
            simp only [Option.getD_some] at hmem
            have hco := honly (r, v) (mapGet_mem hget) hmem
            rw [hsock] at hco
            exact hrR' (Option.some.inj hco).symm
        · rw [if_neg hD, mapGet_mapSet_ne _ _ hrR']
          intro hmem
          cases hget : mapGet s.rooms r with
          | none => simp [hget] at hmem
          | some v =>
            rw [hget] at hmem
            simp only [Option.getD_some] at hmem
            have hco := honly (r, v) (mapGet_mem hget) hmem
            rw [hsock] at hco
            exact hrR' (Option.some.inj hco).symm

/-- C2 amended, at a concrete input: "s" only ever joined "A"; after
its disconnect, "A" no longer lists it. -/
theorem disconnect_clears_when_single_roomed_case :
    "s" ∉ (mapGet (disconnectSock ⟨[("A", ["s", "t"])], [("s", "A")],
        [("A", ["s", "t"])]⟩ "s").1.rooms "A").getD [] :=
  disconnect_clears_when_single_roomed ⟨[("A", ["s", "t"])], [("s", "A")],
      [("A", ["s", "t"])]⟩ "s" (by decide) "A"
